import Mathlib

set_option linter.unusedSectionVars false

/-!
Shallow embedding of the data_communicator repository core
(Container / CommunicatorInfo interest tracking, Communicator local view,
Storage change handling, and the drain_if_iter utility), together with
theorems checking the natural-language specification against it.

Conventions of the embedding:
* `Uuid` is modelled as `Nat`.
* Rust `HashMap<Uuid, Info>` (iterated and point-updated) is modelled as an
  association list `List (Uuid × Info)`; point lookup is `findInfo`.
* Rust `HashSet<Key>` is modelled as `Finset Key`.
* Rust `HashMap<Key, Value>` used as the local materialized view is modelled
  as the function `Key → Option Value`; `FreshData` (built from a list of
  values) is modelled as the underlying association list `List (Key × Value)`.
* Async promises (`ImmediateValuePromise`) in the running-actions vector are
  modelled by the eventual response value plus a tick countdown `delay`;
  polling decrements the countdown and a promise is finished when it reaches
  zero.  Reply channels (oneshot senders) are external I/O and are modelled
  by the result component of the response conversions.
* The update sender / dispatch pool is modelled as an order-preserving
  append of payloads into the two per-communicator mailbox queues.
-/

namespace DataComm

abbrev Uuid := Nat

section Model

variable {Key Value : Type} [DecidableEq Key] [DecidableEq Value]

/-- Model of `QueryType` from `src/query.rs`: `All`, `GetById`, `GetByIds`,
`Predicate` (the boxed predicate becomes a Lean function `Value → Bool`). -/
inductive QueryType (Key Value : Type) where
  | All : QueryType Key Value
  | GetById : Key → QueryType Key Value
  | GetByIds : List Key → QueryType Key Value
  | Predicate : (Value → Bool) → QueryType Key Value

variable (key : Value → Key)

/-- Model of `QueryType::apply` (`src/query.rs` lines 63-71): whether a value
matches the query. -/
def QueryType.apply : QueryType Key Value → Value → Bool
  | .All, _ => true
  | .GetById k, value => decide (k = key value)
  | .GetByIds ks, value => decide (key value ∈ ks)
  | .Predicate predicate, value => predicate value

/-- Model of `DataChange` from `src/change.rs`: an `Insert`/`Update`/`Delete`
batch. -/
inductive DataChange (Key Value : Type) where
  | Insert : List Value → DataChange Key Value
  | Update : List Value → DataChange Key Value
  | Delete : List Key → DataChange Key Value
deriving DecidableEq

/-- Model of `DataChange::len`. -/
def DataChange.len : DataChange Key Value → Nat
  | .Insert values => values.length
  | .Update values => values.length
  | .Delete keys => keys.length

/-- Model of `DataChange::value_keys` (`values.keys()` is the list of each
value's key, `keys.keys()` is the identity). -/
def DataChange.value_keys : DataChange Key Value → List Key
  | .Insert values => values.map key
  | .Update values => values.map key
  | .Delete keys => keys

/-- Model of `ChangeType` from `src/change.rs`: the six client-facing change
request shapes. -/
inductive ChangeType (Key Value : Type) where
  | Insert : Value → ChangeType Key Value
  | InsertMany : List Value → ChangeType Key Value
  | Update : Value → ChangeType Key Value
  | UpdateMany : List Value → ChangeType Key Value
  | Delete : Key → ChangeType Key Value
  | DeleteMany : List Key → ChangeType Key Value
deriving DecidableEq

/-- Model of `ChangeType::is_empty` (`src/change.rs` lines 71-78): true only
for the three `..Many` variants with an empty payload. -/
def ChangeType.is_empty : ChangeType Key Value → Bool
  | .InsertMany vals => vals.isEmpty
  | .UpdateMany vals => vals.isEmpty
  | .DeleteMany vals => vals.isEmpty
  | _ => false

/-- Model of `impl From<ChangeType> for DataChange` (`src/change.rs`
lines 256-271). -/
def ChangeType.toDataChange : ChangeType Key Value → DataChange Key Value
  | .Insert val => .Insert [val]
  | .InsertMany vals => .Insert vals
  | .Update val => .Update [val]
  | .UpdateMany vals => .Update vals
  | .Delete k => .Delete [k]
  | .DeleteMany ks => .Delete ks

/-- Model of `ChangeError` from `src/change.rs` (the `RecvError` payload is
dropped). -/
inductive ChangeError where
  | DefaultError
  | DatabaseError : String → ChangeError
  | ChannelSendError : String → ChangeError
  | ChannelReciveError
deriving DecidableEq

/-- Model of `ChangeResult` from `src/change.rs`. -/
inductive ChangeResult where
  | Success
  | Error : ChangeError → ChangeResult
deriving DecidableEq

/-- Model of `ChangeResponse` from `src/change.rs`. -/
inductive ChangeResponse (Key Value : Type) where
  | Ok : DataChange Key Value → ChangeResponse Key Value
  | Err : ChangeError → ChangeResponse Key Value
deriving DecidableEq

/-- Model of `DataChange::empty_insert` / `empty_update` / `empty_delete`
composed into `ChangeResponse::empty_ok` (`src/change.rs` lines 108-120). -/
def ChangeResponse.empty_ok : ChangeType Key Value → ChangeResponse Key Value
  | .Insert _ | .InsertMany _ => .Ok (.Insert [])
  | .Update _ | .UpdateMany _ => .Ok (.Update [])
  | .Delete _ | .DeleteMany _ => .Ok (.Delete [])

/-- Model of `ChangeResponse::from_type_and_result` (`src/change.rs`
lines 121-129). -/
def ChangeResponse.from_type_and_result (action_type : ChangeType Key Value)
    (action_result : ChangeResult) : ChangeResponse Key Value :=
  match action_result with
  | .Success => .Ok action_type.toDataChange
  | .Error err => .Err err

/-- Model of `impl From<ChangeResponse> for (Option<DataChange>, ChangeResult)`
(`src/change.rs` lines 132-143): the first component is the raw delta to fan
out, the second is the reply sent to the submitter. -/
def ChangeResponse.toPair :
    ChangeResponse Key Value → Option (DataChange Key Value) × ChangeResult
  | .Ok data => (some data, .Success)
  | .Err err => (none, .Error err)

/-- Model of `QueryError` from `src/query.rs` (payloads of the channel error
variants are dropped). -/
inductive QueryError where
  | Default
  | NotPresent
  | ChannelSend : String → QueryError
  | ChannelTrySend : String → QueryError
  | ChannelRecive
deriving DecidableEq

/-- Model of `QueryResult` from `src/query.rs`. -/
inductive QueryResult where
  | Success
  | Error : QueryError → QueryResult
deriving DecidableEq

/-- Model of `FreshData` from `src/query.rs`: the underlying
`HashMap<Key, Value>` as an association list in iteration order. -/
abbrev FreshData (Key Value : Type) := List (Key × Value)

/-- Model of `QueryResponse` from `src/query.rs`. -/
inductive QueryResponse (Key Value : Type) where
  | Ok : FreshData Key Value → QueryResponse Key Value
  | Err : QueryError → QueryResponse Key Value
deriving DecidableEq

/-- Model of `impl From<QueryResponse> for (Option<FreshData>, QueryResult)`
(`src/query.rs` lines 129-140). -/
def QueryResponse.toPair :
    QueryResponse Key Value → Option (FreshData Key Value) × QueryResult
  | .Ok fresh_data => (some fresh_data, .Success)
  | .Err err => (none, .Error err)

/-- Model of `Info` from `src/buffered/container/comm_info.rs`: the interest
record of one communicator, with the set of keys it holds locally and its
most recent (standing) query. -/
structure Info (Key Value : Type) where
  value_keys : Finset Key
  last_query : Option (QueryType Key Value)

/-- Model of `Info::default`: empty known set, no standing query. -/
def Info.default : Info Key Value := ⟨∅, none⟩

/-- Model of `CommunicatorInfo`: the `HashMap<Uuid, Info>` as an association
list in iteration order. -/
abbrev CommunicatorInfo (Key Value : Type) := List (Uuid × Info Key Value)

/-- Point lookup into the communicator-info map (`comm_to_info.get(..)`). -/
def findInfo (u : Uuid) : CommunicatorInfo Key Value → Option (Info Key Value)
  | [] => none
  | ci :: rest => if ci.1 = u then some ci.2 else findInfo u rest

/-- Model of `HashSet::extend` over a list of keys: insert each key in order. -/
def extendKeys (s : Finset Key) (ks : List Key) : Finset Key :=
  ks.foldl (fun acc k => insert k acc) s

/-- Model of removing each key of a list from a `HashSet` in order. -/
def removeKeys (s : Finset Key) (ks : List Key) : Finset Key :=
  ks.foldl (fun acc k => acc.erase k) s

/-- Model of `CommunicatorInfo::update_query` (`comm_info.rs` lines 40-45):
the standing query of the originating communicator is replaced.  The source
asserts (via unreachable) that the originator is registered; on an
unregistered originator this model leaves the map unchanged, and every
theorem about it assumes registration. -/
def update_query (infos : CommunicatorInfo Key Value) (origin_uuid : Uuid)
    (query_type : QueryType Key Value) : CommunicatorInfo Key Value :=
  infos.map fun ci =>
    if ci.1 = origin_uuid then (ci.1, { ci.2 with last_query := some query_type }) else ci

/-- The per-recipient projection computed inside
`CommunicatorInfo::get_interested_comm` (`comm_info.rs` lines 60-93): the
`comm_update` match on the raw change for a single `info` record. -/
def project (info : Info Key Value) : DataChange Key Value → DataChange Key Value
  | .Insert values =>
      .Insert (values.filter fun value =>
        let was_last_queried := decide (key value ∈ info.value_keys)
        let new_data_matches_query :=
          match info.last_query with
          | some query_type => query_type.apply key value
          | none => false
        was_last_queried || new_data_matches_query)
  | .Update values =>
      .Update (values.filter fun value => decide (key value ∈ info.value_keys))
  | .Delete keys =>
      .Delete (keys.filter fun k => decide (k ∈ info.value_keys))

/-- Model of `CommunicatorInfo::get_interested_comm` (`comm_info.rs`
lines 53-100): each registered communicator is paired with its projected
delta, and dropped when the projection has length zero. -/
def get_interested_comm (infos : CommunicatorInfo Key Value)
    (update : DataChange Key Value) : List (Uuid × DataChange Key Value) :=
  infos.filterMap fun ci =>
    let comm_update := project key ci.2 update
    if comm_update.len = 0 then none else some (ci.1, comm_update)

/-- The per-record transformation of `CommunicatorInfo::update_info_from_change`
(`comm_info.rs` lines 106-117): `Insert` extends the known set with the
contained keys, `Delete` removes the contained keys, `Update` is ignored. -/
def Info.apply_change (i : Info Key Value) : DataChange Key Value → Info Key Value
  | .Insert values => { i with value_keys := extendKeys i.value_keys (values.map key) }
  | .Delete keys => { i with value_keys := removeKeys i.value_keys keys }
  | .Update _ => i

/-- Model of `CommunicatorInfo::update_info_from_change` (`comm_info.rs`
lines 106-117): apply the change to the record of the target. -/
def update_info_from_change (infos : CommunicatorInfo Key Value) (target : Uuid)
    (update : DataChange Key Value) : CommunicatorInfo Key Value :=
  infos.map fun ci =>
    if ci.1 = target then (ci.1, ci.2.apply_change key update) else ci

/-- Model of `CommunicatorInfo::update_info_from_query` (`comm_info.rs`
lines 121-125): the known set is cleared and then extended with the keys of
the fresh data. -/
def update_info_from_query (infos : CommunicatorInfo Key Value) (target : Uuid)
    (fresh_data : FreshData Key Value) : CommunicatorInfo Key Value :=
  infos.map fun ci =>
    if ci.1 = target then
      (ci.1, { ci.2 with value_keys := extendKeys ∅ (fresh_data.map Prod.fst) })
    else ci

/-- The local materialized view of a Communicator: the `HashMap<Key, Value>`
behind `Data` (`src/communicator/data.rs`), modelled extensionally as a
partial map. -/
abbrev ViewMap (Key Value : Type) := Key → Option Value

/-- The empty view map. -/
def ViewMap.empty : ViewMap Key Value := fun _ => none

/-- Model of `HashMap::insert`: point update, later writes win. -/
def hmInsert (m : ViewMap Key Value) (k : Key) (v : Value) : ViewMap Key Value :=
  fun k2 => if k2 = k then some v else m k2

/-- Model of `HashMap::extend` over an association list: insert each pair in
iteration order. -/
def hmExtend (m : ViewMap Key Value) (l : List (Key × Value)) : ViewMap Key Value :=
  l.foldl (fun acc kv => hmInsert acc kv.1 kv.2) m

namespace Data

/-- Model of `Data::insert` (`data.rs` lines 56-64): extend the map with
`(v.key(), v)` for every inserted value. -/
def insert (m : ViewMap Key Value) (ins : List Value) : ViewMap Key Value :=
  hmExtend m (ins.map fun v => (key v, v))

/-- Model of `Data::update` (`data.rs` lines 65-78): for each value, overwrite
the stored value at its key when one is present, and skip the value (with a
warning in the source) when the key is absent. -/
def update (m : ViewMap Key Value) (upd : List Value) : ViewMap Key Value :=
  upd.foldl
    (fun acc value =>
      match acc (key value) with
      | some _ => hmInsert acc (key value) value
      | none => acc)
    m

/-- Model of `Data::delete` (`data.rs` lines 79-88): remove each listed key. -/
def delete (m : ViewMap Key Value) (ks : List Key) : ViewMap Key Value :=
  ks.foldl (fun acc k => fun k2 => if k2 = k then none else acc k2) m

/-- Model of `Data::update_data` (`data.rs` lines 41-47). -/
def update_data (m : ViewMap Key Value) : DataChange Key Value → ViewMap Key Value
  | .Insert values => insert key m values
  | .Update values => update key m values
  | .Delete keys => delete m keys

/-- Model of `Data::add_fresh_data` (`data.rs` lines 36-38): extend the map
with the entries of the reply. -/
def add_fresh_data (m : ViewMap Key Value) (data : FreshData Key Value) :
    ViewMap Key Value :=
  hmExtend m data

/-- Chunking of a list into groups of size `n + 1`, the total function behind
the slice `chunks` iterator. -/
def chunksPos (n : Nat) : List Value → List (List Value)
  | [] => []
  | a :: l => ((a :: l).take (n + 1)) :: chunksPos n (l.drop n)
termination_by l => l.length
decreasing_by
  simp only [List.length_cons, List.length_drop]
  omega

/-- Model of the slice `chunks(per_page)` call inside `Data::page`: Rust
asserts that the chunk size is non-zero and panics otherwise; the panic is
modelled as the error case. -/
def chunks (per_page : Nat) (l : List Value) : Except String (List (List Value)) :=
  if per_page = 0 then .error "chunk size must be non-zero"
  else .ok (chunksPos (per_page - 1) l)

/-- Model of `Data::page` (`data.rs` lines 143-148) over the sorted sequence
of the view: the p-th chunk of size `per_page`, or `none` past the end; the
panic of `chunks(0)` surfaces as the error case. -/
def page (sorted : List Value) (p per_page : Nat) :
    Except String (Option (List Value)) :=
  (chunks per_page sorted).map fun cs => cs.get? p

end Data

/-- Model of the Storage operation surface (`src/container/storage.rs`): the
record of which change operation `handle_change` invokes. -/
inductive StorageOp (Key Value : Type) where
  | insert : Value → StorageOp Key Value
  | insert_many : List Value → StorageOp Key Value
  | update : Value → StorageOp Key Value
  | update_many : List Value → StorageOp Key Value
  | delete : Key → StorageOp Key Value
  | delete_many : List Key → StorageOp Key Value
deriving DecidableEq

/-- The Storage operation selected by the non-empty branch of
`Storage::handle_change` (`storage.rs` lines 33-40). -/
def ChangeType.storageOp : ChangeType Key Value → StorageOp Key Value
  | .Insert value => .insert value
  | .InsertMany values => .insert_many values
  | .Update value => .update value
  | .UpdateMany values => .update_many values
  | .Delete k => .delete k
  | .DeleteMany ks => .delete_many ks

/-- Model of `Storage::handle_change` (`storage.rs` lines 19-47).
`storage_result` abstracts the eventual result of the invoked Storage
operation future.  Returns the eventual `ChangeResponse` of the promise
together with the list of Storage change operations invoked: the empty
short-circuit invokes none and resolves to `empty_ok`, the other branch
invokes exactly the selected operation and wraps its result with
`from_type_and_result`. -/
def handle_change (storage_result : ChangeResult) (action : ChangeType Key Value) :
    ChangeResponse Key Value × List (StorageOp Key Value) :=
  if action.is_empty then (ChangeResponse.empty_ok action, [])
  else (ChangeResponse.from_type_and_result action storage_result, [action.storageOp])

/-- A payload produced by the Container for one recipient: a tailored
mutation delta or a fresh-data reply. -/
inductive Payload (Key Value : Type) where
  | delta : DataChange Key Value → Payload Key Value
  | fresh : FreshData Key Value → Payload Key Value

/-- The delta carried by a payload, when it is one. -/
def Payload.deltaOf : Payload Key Value → Option (DataChange Key Value)
  | .delta d => some d
  | .fresh _ => none

/-- The fresh data carried by a payload, when it is one. -/
def Payload.freshOf : Payload Key Value → Option (FreshData Key Value)
  | .delta _ => none
  | .fresh f => some f

/-- The two bounded mailbox queues of one Communicator
(`change_data` and `fresh_data` channels created in
`DataContainer::communicator`), each in FIFO order. -/
structure Mailboxes (Key Value : Type) where
  change_mailbox : List (DataChange Key Value)
  fresh_mailbox : List (FreshData Key Value)

/-- Empty mailboxes. -/
def Mailboxes.empty : Mailboxes Key Value := ⟨[], []⟩

/-- Delivery of one payload into the corresponding mailbox queue (the
dispatch pool send, modelled as an order-preserving append). -/
def Mailboxes.deliver (mb : Mailboxes Key Value) :
    Payload Key Value → Mailboxes Key Value
  | .delta d => { mb with change_mailbox := mb.change_mailbox ++ [d] }
  | .fresh f => { mb with fresh_mailbox := mb.fresh_mailbox ++ [f] }

/-- Delivery of a list of payloads in production order. -/
def Mailboxes.deliver_all (mb : Mailboxes Key Value) (ps : List (Payload Key Value)) :
    Mailboxes Key Value :=
  ps.foldl Mailboxes.deliver mb

/-- Model of `RecievedAction` from `src/communicator.rs`. -/
inductive RecievedAction (Key Value : Type) where
  | Change : DataChange Key Value → RecievedAction Key Value
  | Fresh : FreshData Key Value → RecievedAction Key Value
deriving DecidableEq

/-- Model of `Reciver::recive_new` (`src/communicator.rs` lines 372-383): the
change mailbox is drained completely first, then the fresh-data mailbox;
returns the observed actions and the emptied mailboxes. -/
def recive_new (mb : Mailboxes Key Value) :
    List (RecievedAction Key Value) × Mailboxes Key Value :=
  (mb.change_mailbox.map RecievedAction.Change
      ++ mb.fresh_mailbox.map RecievedAction.Fresh,
    Mailboxes.empty)

end Model

section Drain

variable {α : Type}

/-- One step of consuming the index iterator inside
`DrainIf::drain_if_iter` (`src/utils.rs` line 46): `Vec::remove(index)`
returns the element at the index and closes the gap. -/
def drain_step (ac : List α × List α) (index : Nat) : List α × List α :=
  (ac.1 ++ (ac.2.get? index).toList, ac.2.eraseIdx index)

/-- The indexes collected by the first pass of `drain_if_iter`
(`src/utils.rs` lines 29-42): positions of the elements satisfying the
predicate, in enumeration order. -/
def match_idxs (pred : α → Bool) (l : List α) : List Nat :=
  l.enum.filterMap fun ia => if pred ia.2 then some ia.1 else none

/-- Model of `DrainIf::drain_if_iter` for `Vec` (`src/utils.rs` lines 28-47),
fully consumed as `drain_if` does: collect the matching indexes, sort them,
reverse them, and remove from the highest index down.  The predicate is pure
here (the source predicate may mutate the element; element mutation by
polling is modelled separately in `resolve_finished_actions`).  Returns the
removed elements in removal order and the remaining vector. -/
def drain_if_iter (l : List α) (pred : α → Bool) : List α × List α :=
  let indexes := match_idxs pred l
  let indexes := indexes.insertionSort (· ≤ ·)
  let indexes := indexes.reverse
  indexes.foldl drain_step ([], l)

end Drain

section Container

variable {Key Value : Type} [DecidableEq Key] [DecidableEq Value]
variable (key : Value → Key)

/-- Model of `ResolvingAction` (`src/container/resolving_actions.rs`): an
in-flight Storage promise.  The promise is modelled by its eventual response
plus a countdown `delay` of state-update ticks until polling reports it
finished; the oneshot reply sender is left implicit (its payload is the
result component of the response conversion). -/
inductive ResolvingAction (Key Value : Type) where
  | Change : ChangeResponse Key Value → Nat → ResolvingAction Key Value
  | Query : QueryResponse Key Value → Nat → Uuid → ResolvingAction Key Value

/-- Polling a promise advances it: one tick of the countdown. -/
def ResolvingAction.poll : ResolvingAction Key Value → ResolvingAction Key Value
  | .Change resp delay => .Change resp (delay - 1)
  | .Query resp delay origin => .Query resp (delay - 1) origin

/-- Whether a polled promise reports finished
(`poll_and_finished`, `resolving_actions.rs` lines 36-41). -/
def ResolvingAction.finished : ResolvingAction Key Value → Bool
  | .Change _ delay => delay = 0
  | .Query _ delay _ => delay = 0

/-- Model of `ResolvedAction` (`resolving_actions.rs` lines 76-83). -/
inductive ResolvedAction (Key Value : Type) where
  | Change : DataChange Key Value → ResolvedAction Key Value
  | Query : FreshData Key Value → Uuid → ResolvedAction Key Value

/-- Model of `ResolvingAction::resolve` (`resolving_actions.rs` lines 43-66):
the response splits into an optional fan-out payload and the reply sent on
the oneshot channel (the send itself is external I/O); only the successful
cases produce a `ResolvedAction`. -/
def ResolvingAction.resolve :
    ResolvingAction Key Value → Option (ResolvedAction Key Value)
  | .Change resp _ => resp.toPair.1.map ResolvedAction.Change
  | .Query resp _ origin => resp.toPair.1.map fun data => ResolvedAction.Query data origin

/-- Model of the Container state relevant to interest tracking and
resolution: `comm_info` and `running_actions` from `DataContainer`
(`src/container.rs` lines 36-48). -/
structure ContainerState (Key Value : Type) where
  comm_info : CommunicatorInfo Key Value
  running_actions : List (ResolvingAction Key Value)

/-- A submission drained from the intake channels, tagged with the eventual
outcome of the Storage operation it will start (`storage_result` /
`storage_response`) and the tick countdown of that promise. -/
inductive Submission (Key Value : Type) where
  | change : ChangeType Key Value → ChangeResult → Nat → Submission Key Value
  | query : Uuid → QueryType Key Value → QueryResponse Key Value → Nat →
      Submission Key Value

/-- The running action created for a drained submission
(`DataContainer::recive_new_actions`, `src/container.rs` lines 206-219):
a change goes through `Storage::handle_change`, a query through
`Storage::handle_query`. -/
def Submission.toResolvingAction : Submission Key Value → ResolvingAction Key Value
  | .change action storage_result delay =>
      .Change (handle_change storage_result action).1 delay
  | .query origin _ storage_response delay => .Query storage_response delay origin

/-- Model of `DataContainer::resolve_finished_actions` (`src/container.rs`
lines 174-191): poll every running action, drain the finished ones with
`drain_if_iter`, and resolve each drained action in drain order.  Returns
the resolved actions and the remaining running vector. -/
def resolve_finished_actions (running : List (ResolvingAction Key Value)) :
    List (ResolvedAction Key Value) × List (ResolvingAction Key Value) :=
  let polled := running.map ResolvingAction.poll
  let drained := drain_if_iter polled ResolvingAction.finished
  (drained.1.filterMap ResolvingAction.resolve, drained.2)

/-- Model of `DataContainer::update_communicators` (`src/container.rs`
lines 135-152): compute the interested communicators with their projected
deltas, update each interest record with its projected delta, then hand the
pairs to the update sender.  Returns the new interest map and the dispatched
payloads. -/
def update_communicators (infos : CommunicatorInfo Key Value)
    (update : DataChange Key Value) :
    CommunicatorInfo Key Value × List (Uuid × Payload Key Value) :=
  let communicators := get_interested_comm key infos update
  let infos2 := communicators.foldl
    (fun acc tc => update_info_from_change key acc tc.1 tc.2) infos
  (infos2, communicators.map fun tc => (tc.1, Payload.delta tc.2))

/-- Model of `DataContainer::return_query` (`src/container.rs` lines 157-171):
update the interest record from the fresh data, then send the fresh data to
the originating communicator. -/
def return_query (infos : CommunicatorInfo Key Value) (communicator : Uuid)
    (values : FreshData Key Value) :
    CommunicatorInfo Key Value × List (Uuid × Payload Key Value) :=
  (update_info_from_query infos communicator values,
    [(communicator, Payload.fresh values)])

/-- Model of `DataContainer::recive_new_actions` (`src/container.rs`
lines 196-231): for each drained submission in order, a query submission
updates the standing query of its originator and both kinds append their
running action to the running vector. -/
def recive_new_actions (s : ContainerState Key Value) :
    List (Submission Key Value) → ContainerState Key Value
  | [] => s
  | sub :: rest =>
      recive_new_actions
        (match sub with
          | .change _ _ _ =>
              { s with running_actions := s.running_actions ++ [sub.toResolvingAction] }
          | .query origin query_type _ _ =>
              { comm_info := update_query s.comm_info origin query_type,
                running_actions := s.running_actions ++ [sub.toResolvingAction] })
        rest

/-- Model of `DataContainer::state_update` (`src/container.rs` lines 79-100),
one cooperative tick: resolve the finished actions, fan each resolved action
out (changes through `update_communicators`, queries through `return_query`)
in resolution order, then drain the submissions with `recive_new_actions`.
`subs` is the content of the intake channels for this tick.  Returns the new
state and the payloads handed to the update sender during the tick. -/
def state_update (s : ContainerState Key Value)
    (subs : List (Submission Key Value)) :
    ContainerState Key Value × List (Uuid × Payload Key Value) :=
  let fin_rem := resolve_finished_actions s.running_actions
  let fanned := fin_rem.1.foldl
    (fun acc ra =>
      match ra with
      | .Change change =>
          let r := update_communicators key acc.1 change
          (r.1, acc.2 ++ r.2)
      | .Query query uuid =>
          let r := return_query acc.1 uuid query
          (r.1, acc.2 ++ r.2))
    (s.comm_info, ([] : List (Uuid × Payload Key Value)))
  (recive_new_actions { comm_info := fanned.1, running_actions := fin_rem.2 } subs,
    fanned.2)

end Container

section SpecSide

variable {Key Value : Type} [DecidableEq Key] [DecidableEq Value]

/-- Specification-side reading of the standing-query matching semantics,
following the words of the spec (compared against `QueryType.apply` in
claim C1): All matches everything, GetById matches values with that key,
GetByIds matches values whose key is listed, Predicate matches values on
which the predicate returns true. -/
def MatchesSpec (key : Value → Key) : QueryType Key Value → Value → Prop
  | .All, _ => True
  | .GetById k, v => key v = k
  | .GetByIds ks, v => key v ∈ ks
  | .Predicate p, v => p v = true

end SpecSide

/-- Key extractor for the concrete witness instances: values are pairs and
the first component is the key. -/
def keyW : Nat × Nat → Nat := Prod.fst

/-- Concrete interest map used by witness theorems: one communicator with
uuid 0 that knows key 1 and has the standing query All. -/
def infosW : CommunicatorInfo Nat (Nat × Nat) :=
  [(0, ⟨{1}, some QueryType.All⟩)]

section Lemmas

variable {Key Value : Type} [DecidableEq Key] [DecidableEq Value]
variable (key : Value → Key)

theorem extendKeys_eq_union (s : Finset Key) (ks : List Key) :
    extendKeys s ks = s ∪ ks.toFinset := by
  induction ks generalizing s with
  | nil => simp [extendKeys]
  | cons k t ih =>
      show extendKeys (insert k s) t = _
      rw [ih, List.toFinset_cons, Finset.insert_union, Finset.union_insert]

theorem removeKeys_eq_sdiff (s : Finset Key) (ks : List Key) :
    removeKeys s ks = s \ ks.toFinset := by
  induction ks generalizing s with
  | nil => simp [removeKeys]
  | cons k t ih =>
      show removeKeys (s.erase k) t = _
      rw [ih]
      ext x
      simp only [Finset.mem_sdiff, Finset.mem_erase, List.toFinset_cons,
        Finset.mem_insert, List.mem_toFinset, not_or]
      tauto

theorem findInfo_mapAt (g : Info Key Value → Info Key Value) (t u : Uuid)
    (infos : CommunicatorInfo Key Value) :
    findInfo u (infos.map fun ci => if ci.1 = t then (ci.1, g ci.2) else ci) =
      if u = t then (findInfo u infos).map g else findInfo u infos := by
  induction infos with
  | nil => by_cases h : u = t <;> simp [findInfo, h]
  | cons ci rest ih =>
      obtain ⟨c, i⟩ := ci
      by_cases hct : c = t
      · subst hct
        by_cases hcu : c = u
        · subst hcu
          simp [findInfo]
        · have hne : ¬ u = c := fun h => hcu h.symm
          simp [findInfo, hcu, hne, ih]
      · by_cases hcu : c = u
        · subst hcu
          simp [findInfo, hct]
        · simp [findInfo, hct, hcu, ih]

theorem findInfo_update_info_from_change (infos : CommunicatorInfo Key Value)
    (t u : Uuid) (d : DataChange Key Value) :
    findInfo u (update_info_from_change key infos t d) =
      if u = t then (findInfo u infos).map (fun i => i.apply_change key d)
      else findInfo u infos :=
  findInfo_mapAt (fun i => i.apply_change key d) t u infos

theorem findInfo_update_info_from_query (infos : CommunicatorInfo Key Value)
    (t u : Uuid) (f : FreshData Key Value) :
    findInfo u (update_info_from_query infos t f) =
      if u = t then
        (findInfo u infos).map fun i =>
          { i with value_keys := extendKeys ∅ (f.map Prod.fst) }
      else findInfo u infos :=
  findInfo_mapAt (fun i => { i with value_keys := extendKeys ∅ (f.map Prod.fst) })
    t u infos

theorem findInfo_update_query (infos : CommunicatorInfo Key Value)
    (t u : Uuid) (qt : QueryType Key Value) :
    findInfo u (update_query infos t qt) =
      if u = t then (findInfo u infos).map fun i => { i with last_query := some qt }
      else findInfo u infos :=
  findInfo_mapAt (fun i => { i with last_query := some qt }) t u infos

theorem apply_iff_matchesSpec (q : QueryType Key Value) (v : Value) :
    q.apply key v = true ↔ MatchesSpec key q v := by
  cases q with
  | All => simp [QueryType.apply, MatchesSpec]
  | GetById k => simp [QueryType.apply, MatchesSpec, eq_comm]
  | GetByIds ks => simp [QueryType.apply, MatchesSpec]
  | Predicate p => simp [QueryType.apply, MatchesSpec]

theorem find?_append {α : Type} (l₁ l₂ : List α) (p : α → Bool) :
    (l₁ ++ l₂).find? p = (l₁.find? p <|> l₂.find? p) := by
  induction l₁ with
  | nil => simp
  | cons a t ih => cases hpa : p a <;> simp [List.find?_cons, hpa, ih]

theorem hmExtend_apply (m : ViewMap Key Value) (l : List (Key × Value)) (k : Key) :
    hmExtend m l k =
      match l.reverse.find? (fun kv => decide (kv.1 = k)) with
      | some kv => some kv.2
      | none => m k := by
  induction l generalizing m with
  | nil => simp [hmExtend]
  | cons kv t ih =>
      show hmExtend (hmInsert m kv.1 kv.2) t k = _
      rw [ih, List.reverse_cons, find?_append]
      cases hf : t.reverse.find? (fun kv2 => decide (kv2.1 = k)) with
      | some kv2 => simp [hf]
      | none =>
          by_cases hk : kv.1 = k
          · simp [hf, List.find?, hk, hmInsert]
          · have hk2 : ¬ k = kv.1 := fun h2 => hk h2.symm
            simp [hf, List.find?, hk, hmInsert, hk2]

theorem data_update_apply (m : ViewMap Key Value) (vs : List Value) (k : Key) :
    Data.update key m vs k =
      match m k with
      | none => none
      | some w =>
          match vs.reverse.find? (fun v => decide (key v = k)) with
          | some v => some v
          | none => some w := by
  induction vs generalizing m with
  | nil =>
      cases hm : m k <;> simp [Data.update, hm]
  | cons v t ih =>
      show Data.update key
        (match m (key v) with
          | some _ => hmInsert m (key v) v
          | none => m) t k = _
      rw [ih, List.reverse_cons, find?_append]
      by_cases hkv : key v = k
      · subst hkv
        cases hm : m (key v) with
        | none => simp [hm]
        | some w =>
            simp only [hm, hmInsert, if_pos rfl]
            cases hf : t.reverse.find? (fun v2 => decide (key v2 = key v)) with
            | some v2 => simp [hf]
            | none => simp [hf, List.find?]
      · have hstep :
            (match m (key v) with
              | some _ => hmInsert m (key v) v
              | none => m) k = m k := by
          cases m (key v) with
          | none => rfl
          | some w =>
              have hk2 : ¬ k = key v := fun h2 => hkv h2.symm
              simp [hmInsert, hk2]
        rw [hstep]
        cases hm : m k with
        | none => simp [hm]
        | some w =>
            cases hf : t.reverse.find? (fun v2 => decide (key v2 = k)) with
            | some v2 => simp [hf]
            | none => simp [hf, List.find?, hkv]

theorem data_delete_apply (m : ViewMap Key Value) (ks : List Key) (k : Key) :
    Data.delete m ks k = if k ∈ ks then none else m k := by
  induction ks generalizing m with
  | nil => simp [Data.delete]
  | cons k0 t ih =>
      show Data.delete (fun k2 => if k2 = k0 then none else m k2) t k = _
      rw [ih]
      by_cases hk : k = k0
      · subst hk
        by_cases h2 : k ∈ t <;> simp [h2]
      · by_cases h2 : k ∈ t <;> simp [h2, hk]

theorem deliver_all_change_mailbox (mb : Mailboxes Key Value)
    (ps : List (Payload Key Value)) :
    (Mailboxes.deliver_all mb ps).change_mailbox =
      mb.change_mailbox ++ ps.filterMap Payload.deltaOf := by
  induction ps generalizing mb with
  | nil => simp [Mailboxes.deliver_all]
  | cons p t ih =>
      show (Mailboxes.deliver_all (mb.deliver p) t).change_mailbox = _
      rw [ih]
      cases p <;> simp [Mailboxes.deliver, Payload.deltaOf]

theorem deliver_all_fresh_mailbox (mb : Mailboxes Key Value)
    (ps : List (Payload Key Value)) :
    (Mailboxes.deliver_all mb ps).fresh_mailbox =
      mb.fresh_mailbox ++ ps.filterMap Payload.freshOf := by
  induction ps generalizing mb with
  | nil => simp [Mailboxes.deliver_all]
  | cons p t ih =>
      show (Mailboxes.deliver_all (mb.deliver p) t).fresh_mailbox = _
      rw [ih]
      cases p <;> simp [Mailboxes.deliver, Payload.freshOf]

theorem chunksPos_length (n : Nat) (l : List Value) :
    (Data.chunksPos n l).length = (l.length + n) / (n + 1) := by
  induction l using Data.chunksPos.induct n with
  | case1 =>
      simp [Data.chunksPos, Nat.div_eq_of_lt (Nat.lt_succ_self n)]
  | case2 a l ih =>
      rw [Data.chunksPos, List.length_cons, ih, List.length_drop, List.length_cons]
      rcases le_or_lt n l.length with h | h
      · rw [Nat.sub_add_cancel h,
          show l.length + 1 + n = l.length + (n + 1) by omega,
          Nat.add_div_right _ (Nat.succ_pos n)]
      · have h1 : l.length - n = 0 := by omega
        rw [h1, Nat.zero_add, Nat.div_eq_of_lt (by omega)]
        symm
        have lo : 1 * (n + 1) ≤ l.length + 1 + n := by omega
        have hi : l.length + 1 + n < (1 + 1) * (n + 1) := by omega
        exact Nat.div_eq_of_lt_le lo hi

theorem page_none_iff (l : List Value) (p per_page : Nat) (h : 0 < per_page) :
    Data.page l p per_page = Except.ok none ↔
      (l.length + per_page - 1) / per_page ≤ p := by
  have hz : ¬ per_page = 0 := by omega
  rw [Data.page, Data.chunks, if_neg hz]
  show Except.ok ((Data.chunksPos (per_page - 1) l).get? p) = Except.ok none ↔ _
  rw [Except.ok.injEq, List.get?_eq_none, chunksPos_length,
    show per_page - 1 + 1 = per_page by omega,
    show l.length + per_page - 1 = l.length + (per_page - 1) by omega]

end Lemmas

section DrainLemmas

variable {α : Type}

theorem match_idxs_from_bounds (p : α → Bool) (n : Nat) (l : List α) :
    ∀ j ∈ (List.enumFrom n l).filterMap
      (fun ia => if p ia.2 then some ia.1 else none), n ≤ j ∧ j < n + l.length := by
  induction l generalizing n with
  | nil => simp
  | cons a t ih =>
      intro j hj
      simp only [List.enumFrom, List.filterMap_cons] at hj
      by_cases hpa : p a = true
      · rw [if_pos hpa] at hj
        rcases List.mem_cons.mp hj with h | h
        · subst h
          simp
        · have := ih (n + 1) j h
          constructor
          · omega
          · simp only [List.length_cons]
            omega
      · rw [if_neg hpa] at hj
        have := ih (n + 1) j hj
        constructor
        · omega
        · simp only [List.length_cons]
          omega

theorem match_idxs_from_pairwise (p : α → Bool) (n : Nat) (l : List α) :
    (((List.enumFrom n l).filterMap
      (fun ia => if p ia.2 then some ia.1 else none)).Pairwise (· < ·)) := by
  induction l generalizing n with
  | nil => simp
  | cons a t ih =>
      simp only [List.enumFrom, List.filterMap_cons]
      by_cases hpa : p a = true
      · rw [if_pos hpa]
        refine List.pairwise_cons.mpr ⟨fun j hj => ?_, ih (n + 1)⟩
        have := match_idxs_from_bounds p (n + 1) t j hj
        omega
      · rw [if_neg hpa]
        exact ih (n + 1)

theorem match_idxs_from_concat (p : α → Bool) (n : Nat) (l : List α) (a : α) :
    (List.enumFrom n (l ++ [a])).filterMap
        (fun ia => if p ia.2 then some ia.1 else none) =
      (List.enumFrom n l).filterMap (fun ia => if p ia.2 then some ia.1 else none)
        ++ (if p a then [n + l.length] else []) := by
  induction l generalizing n with
  | nil =>
      simp only [List.nil_append, List.enumFrom, List.filterMap_cons, List.filterMap_nil]
      by_cases hpa : p a = true
      · rw [if_pos hpa]
        simp [hpa]
      · rw [if_neg hpa]
        simp [hpa]
  | cons b t ih =>
      simp only [List.cons_append, List.enumFrom, List.filterMap_cons]
      have hn : n + 1 + t.length = n + (t.length + 1) := by omega
      by_cases hpb : p b = true
      · rw [if_pos hpb]
        simp only [List.append_eq, ih (n + 1), hn, List.length_cons, List.cons_append]
      · rw [if_neg hpb]
        simp only [List.append_eq, ih (n + 1), hn, List.length_cons]

theorem foldl_drain_step_acc (is : List Nat) (acc l : List α) :
    is.foldl drain_step (acc, l) =
      (acc ++ (is.foldl drain_step (([] : List α), l)).1,
        (is.foldl drain_step (([] : List α), l)).2) := by
  induction is generalizing acc l with
  | nil => simp
  | cons i t ih =>
      rw [List.foldl_cons, List.foldl_cons]
      show t.foldl drain_step (acc ++ (l.get? i).toList, l.eraseIdx i) = _
      rw [ih (acc ++ (l.get? i).toList) (l.eraseIdx i)]
      have h2 := ih ((l.get? i).toList) (l.eraseIdx i)
      simp only [drain_step, List.nil_append, h2, List.append_assoc]

theorem eraseIdx_concat_self_length (ys : List α) (a : α) :
    (ys ++ [a]).eraseIdx ys.length = ys := by
  induction ys with
  | nil => rfl
  | cons b t ih => simpa using ih

theorem get?_concat_self_length (ys : List α) (a : α) :
    (ys ++ [a]).get? ys.length = some a := by
  rw [List.get?_eq_getElem?]
  exact List.getElem?_concat_length ys a

theorem foldl_drain_step_concat (is : List Nat) (ys : List α) (a : α)
    (hlt : ∀ j ∈ is, j < ys.length) (hpw : is.Pairwise (· > ·)) :
    is.foldl drain_step ([], ys ++ [a]) =
      ((is.foldl drain_step ([], ys)).1, (is.foldl drain_step ([], ys)).2 ++ [a]) := by
  induction is generalizing ys with
  | nil => simp
  | cons i t ih =>
      have hi : i < ys.length := hlt i (by simp)
      rw [List.foldl_cons, List.foldl_cons]
      simp only [drain_step, List.nil_append]
      have hget : (ys ++ [a]).get? i = ys.get? i := by
        rw [List.get?_eq_getElem?, List.get?_eq_getElem?]
        exact List.getElem?_append_left hi
      have herase : (ys ++ [a]).eraseIdx i = ys.eraseIdx i ++ [a] :=
        List.eraseIdx_append_of_lt_length hi [a]
      rw [hget, herase]
      have hlen : (ys.eraseIdx i).length = ys.length - 1 :=
        List.length_eraseIdx_of_lt hi
      have hlt2 : ∀ j ∈ t, j < (ys.eraseIdx i).length := by
        intro j hj
        have hji : i > j := (List.pairwise_cons.mp hpw).1 j hj
        omega
      have hpw2 : t.Pairwise (· > ·) := (List.pairwise_cons.mp hpw).2
      rw [foldl_drain_step_acc t ((ys.get? i).toList) (ys.eraseIdx i ++ [a]),
        foldl_drain_step_acc t ((ys.get? i).toList) (ys.eraseIdx i),
        ih (ys.eraseIdx i) hlt2 hpw2]

theorem drain_if_iter_eq (l : List α) (p : α → Bool) :
    drain_if_iter l p = ((l.filter p).reverse, l.filter fun x => !p x) := by
  induction l using List.reverseRecOn with
  | nil => rfl
  | append_singleton ys a ih =>
      have hsorted : ∀ m : List α,
          (match_idxs p m).insertionSort (· ≤ ·) = match_idxs p m := fun m =>
        List.Sorted.insertionSort_eq
          ((match_idxs_from_pairwise p 0 m).imp fun h => Nat.le_of_lt h)
      have hys := ih
      rw [drain_if_iter] at hys ⊢
      rw [hsorted] at hys ⊢
      have hconcat : match_idxs p (ys ++ [a]) =
          match_idxs p ys ++ (if p a then [ys.length] else []) := by
        show (List.enumFrom 0 (ys ++ [a])).filterMap _ = _
        rw [match_idxs_from_concat p 0 ys a, Nat.zero_add]
        rfl
      rw [hconcat, List.reverse_append]
      by_cases hpa : p a = true
      · rw [if_pos hpa]
        show (ys.length :: (match_idxs p ys).reverse).foldl drain_step
            ([], ys ++ [a]) = _
        rw [List.foldl_cons]
        show (match_idxs p ys).reverse.foldl drain_step
            ([] ++ ((ys ++ [a]).get? ys.length).toList,
              (ys ++ [a]).eraseIdx ys.length) = _
        rw [get?_concat_self_length, eraseIdx_concat_self_length]
        rw [List.nil_append, foldl_drain_step_acc, hys]
        simp [List.filter_append, hpa]
      · have hpa2 : p a = false := by
          revert hpa
          cases p a <;> simp
        rw [if_neg hpa, List.reverse_nil, List.nil_append]
        have hbounds : ∀ j ∈ (match_idxs p ys).reverse, j < ys.length := by
          intro j hj
          have := match_idxs_from_bounds p 0 ys j (List.mem_reverse.mp hj)
          omega
        have hpw : ((match_idxs p ys).reverse.Pairwise (· > ·)) :=
          (List.pairwise_reverse).mpr (match_idxs_from_pairwise p 0 ys)
        rw [foldl_drain_step_concat _ ys a hbounds hpw, hys]
        simp [List.filter_append, hpa2]

end DrainLemmas

section ContainerLemmas

variable {Key Value : Type} [DecidableEq Key] [DecidableEq Value]
variable (key : Value → Key)

theorem recive_new_actions_running (subs : List (Submission Key Value))
    (s : ContainerState Key Value) :
    (recive_new_actions s subs).running_actions =
      s.running_actions ++ subs.map Submission.toResolvingAction := by
  induction subs generalizing s with
  | nil => simp [recive_new_actions]
  | cons sub t ih =>
      cases sub with
      | change a r d =>
          rw [recive_new_actions]
          rw [ih]
          simp
      | query origin qt resp d =>
          rw [recive_new_actions]
          rw [ih]
          simp

end ContainerLemmas

section Claims

variable {Key Value : Type} [DecidableEq Key] [DecidableEq Value]
variable (key : Value → Key)

/-- C1: for every registered recipient with interest record
(known set, standing query) and every raw mutation, the projected delta of
`get_interested_comm` contains, for an Insert, exactly the values whose key
is known or which match the standing query (with the spec matching
semantics of All, GetById, GetByIds and Predicate); for an Update, exactly
the values whose key is known; for a Delete, exactly the known keys among
those listed; and the recipient appears in the fan-out list exactly when
its projected delta is non-empty. -/
theorem c1_interest_projection (infos : CommunicatorInfo Key Value) (u : Uuid)
    (i : Info Key Value) (h : (u, i) ∈ infos) :
    (∀ update : DataChange Key Value,
      ((u, project key i update) ∈ get_interested_comm key infos update ↔
        (project key i update).len ≠ 0))
    ∧ (∀ vs : List Value, ∃ vs2 : List Value,
        project key i (DataChange.Insert vs) = DataChange.Insert vs2 ∧
        ∀ v : Value, v ∈ vs2 ↔ v ∈ vs ∧
          (key v ∈ i.value_keys ∨
            ∃ q : QueryType Key Value, i.last_query = some q ∧ MatchesSpec key q v))
    ∧ (∀ vs : List Value, ∃ vs2 : List Value,
        project key i (DataChange.Update vs) = DataChange.Update vs2 ∧
        ∀ v : Value, v ∈ vs2 ↔ v ∈ vs ∧ key v ∈ i.value_keys)
    ∧ (∀ ks : List Key, ∃ ks2 : List Key,
        project key i (DataChange.Delete ks) = DataChange.Delete ks2 ∧
        ∀ k : Key, k ∈ ks2 ↔ k ∈ ks ∧ k ∈ i.value_keys) := by
  refine ⟨fun update => ?_, fun vs => ⟨_, rfl, fun v => ?_⟩,
    fun vs => ⟨_, rfl, fun v => ?_⟩, fun ks => ⟨_, rfl, fun k => ?_⟩⟩
  · constructor
    · intro hmem
      rcases List.mem_filterMap.mp hmem with ⟨ci, _, hfi⟩
      by_cases hz : (project key ci.2 update).len = 0
      · simp [hz] at hfi
      · simp [hz] at hfi
        rw [← hfi.2]
        exact hz
    · intro hz
      refine List.mem_filterMap.mpr ⟨(u, i), h, ?_⟩
      simp [hz]
  · rw [List.mem_filter]
    refine and_congr_right fun _ => ?_
    cases hq : i.last_query with
    | none => simp [hq, decide_eq_true_iff]
    | some q =>
        simp only [hq, Bool.or_eq_true, decide_eq_true_iff, Option.some.injEq]
        constructor
        · rintro (hk | ha)
          · exact Or.inl hk
          · exact Or.inr ⟨q, rfl, (apply_iff_matchesSpec key q v).mp ha⟩
        · rintro (hk | ⟨q2, hq2, hm⟩)
          · exact Or.inl hk
          · subst hq2
            exact Or.inr ((apply_iff_matchesSpec key q v).mpr hm)
  · rw [List.mem_filter]
    simp [decide_eq_true_iff]
  · rw [List.mem_filter]
    simp [decide_eq_true_iff]

/-- Witness for C1 at a concrete instance: communicator 0 of `infosW` with
its record, and the raw change Insert of the value (2, 5). -/
theorem c1_witness :
    ((0, (⟨{1}, some QueryType.All⟩ : Info Nat (Nat × Nat))) ∈ infosW)
    ∧ ((∀ update : DataChange Nat (Nat × Nat),
      ((0, project keyW ⟨{1}, some QueryType.All⟩ update) ∈
          get_interested_comm keyW infosW update ↔
        (project keyW ⟨{1}, some QueryType.All⟩ update).len ≠ 0))
    ∧ (∀ vs : List (Nat × Nat), ∃ vs2 : List (Nat × Nat),
        project keyW ⟨{1}, some QueryType.All⟩ (DataChange.Insert vs) =
          DataChange.Insert vs2 ∧
        ∀ v : Nat × Nat, v ∈ vs2 ↔ v ∈ vs ∧
          (keyW v ∈ ({1} : Finset Nat) ∨
            ∃ q : QueryType Nat (Nat × Nat),
              (some QueryType.All : Option (QueryType Nat (Nat × Nat))) = some q ∧
                MatchesSpec keyW q v))
    ∧ (∀ vs : List (Nat × Nat), ∃ vs2 : List (Nat × Nat),
        project keyW ⟨{1}, some QueryType.All⟩ (DataChange.Update vs) =
          DataChange.Update vs2 ∧
        ∀ v : Nat × Nat, v ∈ vs2 ↔ v ∈ vs ∧ keyW v ∈ ({1} : Finset Nat))
    ∧ (∀ ks : List Nat, ∃ ks2 : List Nat,
        project keyW ⟨{1}, some QueryType.All⟩ (DataChange.Delete ks) =
          DataChange.Delete ks2 ∧
        ∀ k : Nat, k ∈ ks2 ↔ k ∈ ks ∧ k ∈ ({1} : Finset Nat))) :=
  ⟨by simp [infosW], c1_interest_projection keyW infosW 0 ⟨{1}, some QueryType.All⟩
      (by simp [infosW])⟩

/-- C2: immediately after the projected delta of a recipient is computed,
updating the interest record of that recipient with the projected delta
leaves the standing query unchanged and turns the known set into its union
with the keys of an Insert or Update projection, and into its difference
with the keys of a Delete projection.  For Update the source leaves the
record untouched, which coincides with the union because every key of a
projected Update is already known. -/
theorem c2_known_set_update (infos : CommunicatorInfo Key Value) (u : Uuid)
    (i : Info Key Value) (h : findInfo u infos = some i)
    (update : DataChange Key Value) :
    ∃ i2 : Info Key Value,
      findInfo u (update_info_from_change key infos u (project key i update)) =
        some i2 ∧
      i2.last_query = i.last_query ∧
      (∀ vs : List Value, project key i update = DataChange.Insert vs →
        i2.value_keys = i.value_keys ∪ (vs.map key).toFinset) ∧
      (∀ vs : List Value, project key i update = DataChange.Update vs →
        i2.value_keys = i.value_keys ∪ (vs.map key).toFinset) ∧
      (∀ ks : List Key, project key i update = DataChange.Delete ks →
        i2.value_keys = i.value_keys \ ks.toFinset) := by
  refine ⟨i.apply_change key (project key i update), ?_, ?_, ?_, ?_, ?_⟩
  · rw [findInfo_update_info_from_change]
    simp [h]
  · cases hp : project key i update <;> simp [Info.apply_change]
  · intro vs hvs
    rw [hvs]
    simp [Info.apply_change, extendKeys_eq_union]
  · intro vs hvs
    rw [hvs]
    simp only [Info.apply_change]
    cases update with
    | Insert vs0 => simp [project] at hvs
    | Delete ks0 => simp [project] at hvs
    | Update vs0 =>
        simp only [project, DataChange.Update.injEq] at hvs
        subst hvs
        symm
        rw [Finset.union_eq_left]
        intro x hx
        simp only [List.mem_toFinset, List.mem_map] at hx
        obtain ⟨v, hv, rfl⟩ := hx
        exact of_decide_eq_true (List.mem_filter.mp hv).2
  · intro ks hks
    rw [hks]
    simp [Info.apply_change, removeKeys_eq_sdiff]

/-- Witness for C2 at a concrete instance: communicator 0 of `infosW` with
the raw change Update of the values (1, 9) and (2, 3). -/
theorem c2_witness :
    (findInfo 0 infosW = some ⟨{1}, some QueryType.All⟩)
    ∧ ∃ i2 : Info Nat (Nat × Nat),
      findInfo 0 (update_info_from_change keyW infosW 0
        (project keyW ⟨{1}, some QueryType.All⟩
          (DataChange.Update [(1, 9), (2, 3)]))) = some i2 ∧
      i2.last_query = some QueryType.All ∧
      (∀ vs : List (Nat × Nat),
        project keyW ⟨{1}, some QueryType.All⟩ (DataChange.Update [(1, 9), (2, 3)]) =
          DataChange.Insert vs →
        i2.value_keys = ({1} : Finset Nat) ∪ (vs.map keyW).toFinset) ∧
      (∀ vs : List (Nat × Nat),
        project keyW ⟨{1}, some QueryType.All⟩ (DataChange.Update [(1, 9), (2, 3)]) =
          DataChange.Update vs →
        i2.value_keys = ({1} : Finset Nat) ∪ (vs.map keyW).toFinset) ∧
      (∀ ks : List Nat,
        project keyW ⟨{1}, some QueryType.All⟩ (DataChange.Update [(1, 9), (2, 3)]) =
          DataChange.Delete ks →
        i2.value_keys = ({1} : Finset Nat) \ ks.toFinset) :=
  ⟨rfl, c2_known_set_update keyW infosW 0 ⟨{1}, some QueryType.All⟩ rfl
    (DataChange.Update [(1, 9), (2, 3)])⟩

/-- C6: when a successful query resolves with fresh data, `return_query`
replaces the known set of the originator with exactly the key set of the
fresh data (not a merge), leaves its standing query unchanged, and sends the
fresh data to that originator. -/
theorem c6_query_resets_knowledge (infos : CommunicatorInfo Key Value) (u : Uuid)
    (i : Info Key Value) (f : FreshData Key Value) (h : findInfo u infos = some i) :
    ∃ i2 : Info Key Value,
      findInfo u (return_query infos u f).1 = some i2 ∧
      i2.value_keys = (f.map Prod.fst).toFinset ∧
      i2.last_query = i.last_query ∧
      (return_query infos u f).2 = [(u, Payload.fresh f)] := by
  refine ⟨{ i with value_keys := extendKeys ∅ (f.map Prod.fst) }, ?_, ?_, rfl, rfl⟩
  · show findInfo u (update_info_from_query infos u f) = _
    rw [findInfo_update_info_from_query]
    simp [h]
  · simp [extendKeys_eq_union]

/-- Witness for C6 at a concrete instance: communicator 0 of `infosW` and the
fresh data with entries at keys 3 and 4. -/
theorem c6_witness :
    (findInfo 0 infosW = some ⟨{1}, some QueryType.All⟩)
    ∧ ∃ i2 : Info Nat (Nat × Nat),
      findInfo 0 (return_query infosW 0 [(3, (3, 7)), (4, (4, 8))]).1 = some i2 ∧
      i2.value_keys = ([(3, (3, 7)), (4, (4, 8))].map Prod.fst).toFinset ∧
      i2.last_query = some QueryType.All ∧
      (return_query infosW 0 [(3, (3, 7)), (4, (4, 8))]).2 =
        [(0, Payload.fresh [(3, (3, 7)), (4, (4, 8))])] :=
  ⟨rfl, c6_query_resets_knowledge infosW 0 ⟨{1}, some QueryType.All⟩
    [(3, (3, 7)), (4, (4, 8))] rfl⟩

/-- C4 counterexample: the claim says an Update delta upserts, inserting a
value whose key is absent; on the empty view, applying Update of the value
(5, 7) does not insert it at key 5. -/
theorem c4_counterexample :
    ¬ Data.update_data keyW ViewMap.empty (DataChange.Update [(5, 7)]) 5 =
      some (5, 7) := by
  decide

/-- C4 amended: in the local view, Insert upserts every contained value
(the last value with a given key winning), Update overwrites the stored
value at keys that are present and ignores values whose key is absent,
Delete removes the listed keys, and a fresh-data reply extends the map with
its entries (upserting each). -/
theorem c4_view_semantics (m : ViewMap Key Value) (k : Key) :
    (∀ vs : List Value,
      Data.update_data key m (DataChange.Insert vs) k =
        match (vs.map fun v => (key v, v)).reverse.find?
            (fun kv => decide (kv.1 = k)) with
        | some kv => some kv.2
        | none => m k)
    ∧ (∀ vs : List Value,
      Data.update_data key m (DataChange.Update vs) k =
        match m k with
        | none => none
        | some w =>
            match vs.reverse.find? (fun v => decide (key v = k)) with
            | some v => some v
            | none => some w)
    ∧ (∀ ks : List Key,
      Data.update_data key m (DataChange.Delete ks) k =
        if k ∈ ks then none else m k)
    ∧ (∀ f : FreshData Key Value,
      Data.add_fresh_data m f k =
        match f.reverse.find? (fun kv => decide (kv.1 = k)) with
        | some kv => some kv.2
        | none => m k) :=
  ⟨fun vs => hmExtend_apply m (vs.map fun v => (key v, v)) k,
    fun vs => data_update_apply key m vs k,
    fun ks => data_delete_apply m ks k,
    fun f => hmExtend_apply m f k⟩

/-- C5: the three empty-many change requests short-circuit inside
`Storage::handle_change`: no Storage change operation is invoked and the
reply conversion of the resolved response yields Success for the
submitter. -/
theorem c5_empty_short_circuit (storage_result : ChangeResult) :
    ((handle_change storage_result ((ChangeType.InsertMany []) : ChangeType Key Value)).2 = []
      ∧ ((handle_change storage_result
          ((ChangeType.InsertMany []) : ChangeType Key Value)).1.toPair).2 =
        ChangeResult.Success)
    ∧ ((handle_change storage_result ((ChangeType.UpdateMany []) : ChangeType Key Value)).2 = []
      ∧ ((handle_change storage_result
          ((ChangeType.UpdateMany []) : ChangeType Key Value)).1.toPair).2 =
        ChangeResult.Success)
    ∧ ((handle_change storage_result ((ChangeType.DeleteMany []) : ChangeType Key Value)).2 = []
      ∧ ((handle_change storage_result
          ((ChangeType.DeleteMany []) : ChangeType Key Value)).1.toPair).2 =
        ChangeResult.Success) :=
  ⟨⟨rfl, rfl⟩, ⟨rfl, rfl⟩, ⟨rfl, rfl⟩⟩

/-- C3 counterexample: the Container produces a fresh-data reply and then a
mutation delta for the same recipient; draining in `state_update` observes
the delta first, because `Reciver::recive_new` empties the change mailbox
completely before the fresh-data mailbox, so the payloads are not observed
in production order. -/
theorem c3_counterexample :
    (recive_new (Mailboxes.deliver_all (Mailboxes.empty : Mailboxes Nat (Nat × Nat))
        [Payload.fresh ([(1, (1, 2))] : FreshData Nat (Nat × Nat)),
          Payload.delta (DataChange.Insert [((2, 3) : Nat × Nat)])])).1 ≠
      [RecievedAction.Fresh ([(1, (1, 2))] : FreshData Nat (Nat × Nat)),
        RecievedAction.Change (DataChange.Insert [((2, 3) : Nat × Nat)])] := by
  simp [recive_new, Mailboxes.deliver_all, Mailboxes.deliver, Mailboxes.empty]

/-- C3 amended (per-kind FIFO): draining the mailboxes observes all pending
mutation deltas in the order the Container produced them, followed by all
pending fresh-data replies in the order the Container produced them; in
particular any two mutations produced in some order are observed in that
order, but order is not preserved between a delta and a fresh-data reply. -/
theorem c3_per_kind_fifo (ps : List (Payload Key Value)) :
    (recive_new (Mailboxes.deliver_all Mailboxes.empty ps)).1 =
      (ps.filterMap Payload.deltaOf).map RecievedAction.Change ++
        (ps.filterMap Payload.freshOf).map RecievedAction.Fresh := by
  rw [recive_new, deliver_all_change_mailbox, deliver_all_fresh_mailbox]
  simp [Mailboxes.empty]

/-- C7: evaluation of `Data::page` at the boundary inputs.  With page size 2
on a view of length 2, page 1 is past the end and absent (the first
conjunct, agreeing with the claim for positive sizes), but with page size 0
the underlying slice `chunks` call asserts and panics (modelled as the error
case), contradicting the claim that `page` returns absent or an error
result rather than panicking. -/
theorem c7_page_boundaries :
    Data.page ([(1, 1), (2, 2)] : List (Nat × Nat)) 1 2 = Except.ok none
    ∧ Data.page ([(1, 1)] : List (Nat × Nat)) 0 0 =
        Except.error "chunk size must be non-zero" := by
  constructor
  · rw [page_none_iff _ 1 2 (by omega)]
    simp
  · rw [Data.page, Data.chunks, if_pos rfl]
    rfl

/-- C8: within one `state_update` tick, completed Storage operations are
resolved and fanned out before new submissions are drained: the payloads
dispatched during a tick do not depend on the submissions drained in that
tick (so a change submitted in tick n is never fanned out in tick n), and
the drained submissions only append their new running actions after the
remaining running vector. -/
theorem c8_per_tick_order (s : ContainerState Key Value)
    (subs : List (Submission Key Value)) :
    (state_update key s subs).2 = (state_update key s []).2
    ∧ (state_update key s subs).1.running_actions =
        (state_update key s []).1.running_actions ++
          subs.map Submission.toResolvingAction := by
  refine ⟨rfl, ?_⟩
  have h1 : (state_update key s subs).1.running_actions =
      (resolve_finished_actions s.running_actions).2 ++
        subs.map Submission.toResolvingAction :=
    recive_new_actions_running subs _
  have h2 : (state_update key s []).1.running_actions =
      (resolve_finished_actions s.running_actions).2 ++
        ([] : List (Submission Key Value)).map Submission.toResolvingAction :=
    recive_new_actions_running [] _
  rw [h1, h2]
  simp

/-- C9: when a Communicator's query submission is drained, the Container
replaces the standing query of that Communicator at drain time, before the
Storage operation resolves; if the query then fails at the Storage, the
failed query type remains the standing query while the known set is left
unchanged, and no payload is dispatched to the Communicator by either
tick. -/
theorem c9_failed_query_standing (s : ContainerState Key Value) (u : Uuid)
    (i : Info Key Value) (qt : QueryType Key Value) (e : QueryError)
    (h1 : s.running_actions = []) (h2 : findInfo u s.comm_info = some i) :
    (state_update key s [Submission.query u qt (QueryResponse.Err e) 1]).2 = []
    ∧ findInfo u
        (state_update key s [Submission.query u qt (QueryResponse.Err e) 1]).1.comm_info =
        some { i with last_query := some qt }
    ∧ (state_update key
        (state_update key s [Submission.query u qt (QueryResponse.Err e) 1]).1 []).2 = []
    ∧ findInfo u
        (state_update key
          (state_update key s [Submission.query u qt (QueryResponse.Err e) 1]).1
          []).1.comm_info =
        some { i with last_query := some qt } := by
  obtain ⟨infos, running⟩ := s
  change running = [] at h1
  subst h1
  change findInfo u infos = some i at h2
  have hstep1 : state_update key (⟨infos, []⟩ : ContainerState Key Value)
      [Submission.query u qt (QueryResponse.Err e) 1] =
      (⟨update_query infos u qt,
        [ResolvingAction.Query (QueryResponse.Err e) 1 u]⟩, []) := rfl
  have hstep2 : state_update key
      (⟨update_query infos u qt,
        [ResolvingAction.Query (QueryResponse.Err e) 1 u]⟩ :
          ContainerState Key Value) [] =
      (⟨update_query infos u qt, []⟩, []) := rfl
  rw [hstep1, hstep2]
  refine ⟨rfl, ?_, rfl, ?_⟩ <;>
    · show findInfo u (update_query infos u qt) = _
      rw [findInfo_update_query]
      simp [h2]

/-- Witness for C9 at a concrete instance: container with the single
registered communicator 0 of `infosW`, no in-flight action, submitting an
All query that fails with the Default error. -/
theorem c9_witness :
    ((⟨infosW, []⟩ : ContainerState Nat (Nat × Nat)).running_actions = []
      ∧ findInfo 0 (⟨infosW, []⟩ : ContainerState Nat (Nat × Nat)).comm_info =
        some ⟨{1}, some QueryType.All⟩)
    ∧ ((state_update keyW (⟨infosW, []⟩ : ContainerState Nat (Nat × Nat))
        [Submission.query 0 QueryType.All (QueryResponse.Err QueryError.Default) 1]).2 = []
    ∧ findInfo 0
        (state_update keyW (⟨infosW, []⟩ : ContainerState Nat (Nat × Nat))
          [Submission.query 0 QueryType.All
            (QueryResponse.Err QueryError.Default) 1]).1.comm_info =
        some { (⟨{1}, some QueryType.All⟩ : Info Nat (Nat × Nat)) with
          last_query := some QueryType.All }
    ∧ (state_update keyW
        (state_update keyW (⟨infosW, []⟩ : ContainerState Nat (Nat × Nat))
          [Submission.query 0 QueryType.All
            (QueryResponse.Err QueryError.Default) 1]).1 []).2 = []
    ∧ findInfo 0
        (state_update keyW
          (state_update keyW (⟨infosW, []⟩ : ContainerState Nat (Nat × Nat))
            [Submission.query 0 QueryType.All
              (QueryResponse.Err QueryError.Default) 1]).1 []).1.comm_info =
        some { (⟨{1}, some QueryType.All⟩ : Info Nat (Nat × Nat)) with
          last_query := some QueryType.All }) :=
  ⟨⟨rfl, rfl⟩,
    c9_failed_query_standing keyW ⟨infosW, []⟩ 0 ⟨{1}, some QueryType.All⟩
      QueryType.All QueryError.Default rfl rfl⟩

/-- C10: draining with `drain_if_iter` removes exactly the matching elements,
from the highest index down to the lowest, so the removed elements come out
in reverse order of their position and the rest keep their order; hence
`resolve_finished_actions` resolves the completed running actions in reverse
order of their position in the running-actions vector (the most recently
appended completed action first). -/
theorem c10_reverse_resolution_order {α : Type} (l : List α) (pred : α → Bool)
    (running : List (ResolvingAction Key Value)) :
    drain_if_iter l pred = ((l.filter pred).reverse, l.filter fun x => !pred x)
    ∧ resolve_finished_actions running =
      ((((running.map ResolvingAction.poll).filter
            ResolvingAction.finished).reverse).filterMap ResolvingAction.resolve,
        (running.map ResolvingAction.poll).filter
          fun a => !a.finished) := by
  refine ⟨drain_if_iter_eq l pred, ?_⟩
  rw [resolve_finished_actions]
  rw [drain_if_iter_eq]

end Claims

end DataComm
